import Mathlib


/-!
Verification of the retrieval-augmented question-answering pipeline
(`document_processor.py`, `qa_engine.py`) against its specification.

Text is modelled as `List Char`; Python strings in the source become
char lists here.  The regular expressions used by the source are small
enough that their Python semantics (leftmost, greedy, non-overlapping
matching) can be implemented directly:
for the patterns in this program every greedy quantifier is followed by a
character class disjoint from the quantified class, so greedy matching
without backtracking is exactly the regex semantics.
-/


/-- Python `\d` character class (ASCII digits, as used on this input). -/
def pyIsDigit (c : Char) : Bool := c.isDigit


/-- Python `\s` character class: space, tab, newline, CR, vertical tab, form feed. -/
def pyIsSpace (c : Char) : Bool :=
  c = ' ' || c = '\t' || c = '\n' || c = '\r' || c = '\x0b' || c = '\x0c'


/-- Python `[A-Z]` character class. -/
def pyIsUpper (c : Char) : Bool := 'A' ≤ c && c ≤ 'Z'


/-- Python `str.strip()`: drop leading and trailing whitespace. -/
def pyStrip (s : List Char) : List Char :=
  ((s.dropWhile pyIsSpace).reverse.dropWhile pyIsSpace).reverse


/-- Python `str.split('\n')`: split at every newline, keeping empty pieces. -/
def splitNL : List Char → List (List Char)
  | [] => [[]]
  | c :: rest =>
    if c = '\n' then [] :: splitNL rest
    else
      match splitNL rest with
      | [] => [[c]]
      | p :: ps => (c :: p) :: ps


/-- Python `str.startswith(pat)` on char lists: `listStartsWith pat s`. -/
def listStartsWith : List Char → List Char → Bool
  | [], _ => true
  | _ :: _, [] => false
  | p :: ps, c :: cs => p = c && listStartsWith ps cs


/-- Substring test (used to state counterexamples about produced text). -/
def containsSub (pat : List Char) : List Char → Bool
  | [] => pat.isEmpty
  | c :: rest => listStartsWith pat (c :: rest) || containsSub pat rest


/-!
## `document_processor.py`: `split_by_sections`

`re.split(r'(\d+\.\s+[A-Z][^\n]+)', text)` keeps the captured headings in
the returned list.  `matchHeading` is one anchored attempt of the pattern;
`reSplitAux` is the leftmost non-overlapping scan performed by `re.split`.
-/


/-- One attempt of `\d+\.\s+[A-Z][^\n]+` at the start of `s`:
`some (matched, rest)` on success. -/
def matchHeading (s : List Char) : Option (List Char × List Char) :=
  if (s.takeWhile pyIsDigit).isEmpty then none else
  match s.dropWhile pyIsDigit with
  | [] => none
  | x :: r2 =>
    if x = '.' then
      if (r2.takeWhile pyIsSpace).isEmpty then none else
      match r2.dropWhile pyIsSpace with
      | [] => none
      | c :: r4 =>
        if pyIsUpper c then
          if (r4.takeWhile (fun y => y ≠ '\n')).isEmpty then none
          else some (s.takeWhile pyIsDigit ++ x :: r2.takeWhile pyIsSpace
                       ++ c :: r4.takeWhile (fun y => y ≠ '\n'),
                     r4.dropWhile (fun y => y ≠ '\n'))
        else none
    else none


/-- The scan of `re.split(r'(\d+\.\s+[A-Z][^\n]+)', text)`: leftmost
non-overlapping matches; `acc` holds the (reversed) text since the last
match. The result alternates non-matching stretches and captured headings,
and reassembles to the input, exactly as Python returns it.
`fuel` only bounds the recursion (each step consumes at least one
character, so `fuel = s.length` never runs out); it keeps the
definition structurally recursive so that it evaluates in the kernel. -/
def reSplitAuxF : Nat → List Char → List Char → List (List Char)
  | _, [], acc => [acc.reverse]
  | 0, s, acc => [acc.reverse ++ s]
  | fuel + 1, c :: rest, acc =>
    match matchHeading (c :: rest) with
    | some (m, r) => acc.reverse :: m :: reSplitAuxF fuel r []
    | none => reSplitAuxF fuel rest (c :: acc)


/-- The scan with its fuel fixed to the length of the remaining input. -/
def reScan (s acc : List Char) : List (List Char) := reSplitAuxF s.length s acc


def reSplit (s : List Char) : List (List Char) := reScan s []


/-- The loop's membership test `re.match(r'\d+\.\s+[A-Z]', part)`:
the same pattern anchored at the start of the part, without the
`[^\n]+` tail. -/
def loopHeadingMatch (s : List Char) : Bool :=
  if (s.takeWhile pyIsDigit).isEmpty then false else
  match s.dropWhile pyIsDigit with
  | [] => false
  | x :: r2 =>
    if x = '.' then
      if (r2.takeWhile pyIsSpace).isEmpty then false else
      match r2.dropWhile pyIsSpace with
      | [] => false
      | c :: _ => pyIsUpper c
    else false


/-- A chunk produced by `split_by_sections`
(`{'section': ..., 'content': ..., 'char_count': ...}`). -/
structure SectionChunk where
  sectionTitle : List Char
  content : List Char
  char_count : Nat
  deriving DecidableEq, Repr


/-- Emitting one chunk: `'\n'.join(current_content)` plus metadata. -/
def flushChunk (sec : List Char) (cont : List (List Char)) : SectionChunk :=
  let t := List.intercalate ['\n'] cont
  { sectionTitle := sec, content := t, char_count := t.length }


/-- The accumulation loop of `split_by_sections` over the parts returned
by `re.split`.  State: `sec` is `current_section` (`none` = Python `None`),
`cont` is `current_content`.  The final flush of the Python code is the
`[]` case. -/
def runLoop : List (List Char) → Option (List Char) → List (List Char) → List SectionChunk
  | [], none, _ => []
  | [], some sec, cont => [flushChunk sec cont]
  | p :: ps, sec, cont =>
    if loopHeadingMatch p then
      match sec with
      | some s => flushChunk s cont :: runLoop ps (some (pyStrip p)) [p]
      | none => runLoop ps (some (pyStrip p)) [p]
    else if ¬(pyStrip p).isEmpty then
      runLoop ps sec (cont ++ [p])
    else
      runLoop ps sec cont


/-- `DocumentProcessor.split_by_sections`. -/
def split_by_sections (text : List Char) : List SectionChunk :=
  runLoop (reSplit text) none []


/-- A per-page document as produced by `load_pdf`
(`{'content': ..., 'metadata': {'page': ..., 'source': ...}}`). -/
structure PageDoc where
  content : List Char
  page : Nat
  source : List Char
  deriving DecidableEq, Repr


/-- Chunk metadata as built by `split_documents` (section path sets
`section`; the fallback path carries the page metadata through). -/
structure ChunkMeta where
  sectionTitle : Option (List Char)
  page : Nat
  chunk_id : Nat
  source : List Char
  deriving DecidableEq, Repr


structure DocChunk where
  content : List Char
  meta : ChunkMeta
  deriving DecidableEq, Repr


/-- `'\n'.join([doc["content"] for doc in documents])`. -/
def fullTextOf (documents : List PageDoc) : List Char :=
  List.intercalate ['\n'] (documents.map (·.content))


/-- The generic-fallback chunks of one page document: the external
`RecursiveCharacterTextSplitter.split_text` is passed in as `splitText`
(it is third-party library code), and `chunk_id` is the enumeration
index `i` of that page's pieces. -/
def fallbackChunks (splitText : List Char → List (List Char)) (doc : PageDoc) :
    List DocChunk :=
  (splitText doc.content).enum.map fun p =>
    { content := p.2,
      meta := { sectionTitle := none, page := doc.page, chunk_id := p.1,
                source := doc.source } }


/-- `DocumentProcessor.split_documents`.  The section path numbers chunks
`0,1,2,...` across the whole pass and estimates pages as
`min(i+1, len(documents))`; the fallback path enumerates per document. -/
def split_documents (splitText : List Char → List (List Char))
    (documents : List PageDoc) (use_section_split : Bool) : List DocChunk :=
  let full_text := fullTextOf documents
  let sectionPass :=
    if use_section_split then split_by_sections full_text else []
  if use_section_split ∧ sectionPass.length > 0 then
    sectionPass.enum.map fun p =>
      { content := p.2.content,
        meta := { sectionTitle := some p.2.sectionTitle,
                  page := min (p.1 + 1) documents.length,
                  chunk_id := p.1,
                  source := match documents with
                            | [] => []
                            | d :: _ => d.source } }
  else
    documents.flatMap (fallbackChunks splitText)


/-!
## `qa_engine.py`

The vector store, the OpenAI client and its key are external
collaborators; they appear as an environment `QAEnv`.  Scores are floats
that the engine only copies around, so they stay a type parameter `S`.
-/


/-- A retrieved chunk `{"content": ..., "metadata": {...}, "score": ...}`
as built by `search_relevant_chunks`; `page = none` models a metadata
dict without a `'page'` key (displayed as `"?"`). -/
structure RChunk (S : Type) where
  content : List Char
  page : Option Nat
  sectionTitle : Option (List Char)
  score : S
  deriving DecidableEq, Repr


/-- A display source dict as built by `format_sources`. -/
structure SourceEntry (S : Type) where
  page : Option Nat
  sectionTitle : List Char
  content : List Char
  score : S
  deriving DecidableEq, Repr


/-- The query cache `self.cache`: a dict keyed by the verbatim question. -/
abbrev Cache (S : Type) := List (List Char × (List Char × List (SourceEntry S)))


/-- Exact-string dict lookup. -/
def cacheLookup {S : Type} : Cache S → List Char → Option (List Char × List (SourceEntry S))
  | [], _ => none
  | (k, v) :: rest, q => if k = q then some v else cacheLookup rest q


/-- The engine's external collaborators and call-time configuration. -/
structure QAEnv (S : Type) where
  /-- `Config.MODE` at call time. -/
  mode : List Char
  /-- `Config.ENABLE_CACHE`. -/
  enableCache : Bool
  /-- Whether `Config.OPENAI_API_KEY` is non-empty. -/
  hasKey : Bool
  /-- `vector_store.similarity_search_with_score` (already shaped into
  chunk records): `.error` models an exception inside retrieval. -/
  search : List Char → Except Unit (List (RChunk S))
  /-- `llm.invoke`: `.error e` models a provider exception whose string
  form is `e` (auth, network, quota). -/
  llm : List Char → Except (List Char) (List Char)


/-- `QAEngine.search_relevant_chunks`: any internal exception is caught
and degraded to an empty list. -/
def search_relevant_chunks {S : Type} (env : QAEnv S) (question : List Char) :
    List (RChunk S) :=
  match env.search question with
  | .ok results => results
  | .error _ => []


/-- `Config.PROMPT_TEMPLATE.format(context=..., question=...)`: the fixed
prompt text around the two inserted pieces. -/
def promptOf (question context : List Char) : List Char :=
  ("You are an experienced HR consultant who helps employees understand company policies.\n\nYour task is to accurately answer employee questions based on the employee handbook content.\n\nEmployee Handbook Content:\n").toList
    ++ context
    ++ ("\n\nEmployee Question:\n").toList
    ++ question
    ++ ("\n\nIMPORTANT - How to read employee handbook policies:").toList


/-- `QAEngine._get_llm`: in paid mode without a key it raises
`ValueError`; in paid mode with a key it returns the client; otherwise
it returns `None`. -/
def get_llm {S : Type} (env : QAEnv S) : Except (List Char) (Option Unit) :=
  if env.mode = ("paid").toList then
    if ¬env.hasKey then .error ("Please set OPENAI_API_KEY in .env file").toList
    else .ok (some ())
  else .ok none


/-- `QAEngine.generate_answer_openai`: everything inside the `try` —
including the `ValueError` from `_get_llm` and the explicit
`LLMAPIError` for an unconfigured paid mode — is re-raised as
`LLMAPIError(f"OpenAI API error: {e}")`. -/
def generate_answer_openai {S : Type} (env : QAEnv S) (question context : List Char) :
    Except (List Char) (List Char) :=
  let attempt : Except (List Char) (List Char) :=
    match get_llm env with
    | .error e => .error e
    | .ok none => .error ("Paid mode not properly configured").toList
    | .ok (some _) => env.llm (promptOf question context)
  match attempt with
  | .error e => .error (("OpenAI API error: ").toList ++ e)
  | .ok a => .ok a


/-- `re.search(r'Page (\d+)', line)`: the digits of the first
`"Page "`-plus-digits occurrence, scanning left to right. -/
def pySearchPage : List Char → Option (List Char)
  | [] => none
  | c :: rest =>
    if listStartsWith ("Page ").toList (c :: rest) ∧
        ¬(((c :: rest).drop 5).takeWhile pyIsDigit).isEmpty then
      some (((c :: rest).drop 5).takeWhile pyIsDigit)
    else
      pySearchPage rest


/-- The fixed not-found answer. -/
def notFoundMsg : List Char :=
  ("Sorry, no relevant information found in the handbook.").toList


/-- The line loop of `generate_simple_answer`: `pg` is `current_page`,
`acc` is `relevant_lines`. -/
def simpleScan : List (List Char) → Option (List Char) → List (List Char) →
    Option (List Char) × List (List Char)
  | [], pg, acc => (pg, acc)
  | l :: ls, pg, acc =>
    let line := pyStrip l
    if listStartsWith ("[Source:").toList line then
      match pySearchPage line with
      | some d => simpleScan ls (some d) acc
      | none => simpleScan ls pg acc
    else if ¬line.isEmpty ∧ pg.isSome then
      simpleScan ls pg (acc ++ [("• ").toList ++ line])
    else
      simpleScan ls pg acc


/-- `QAEngine.generate_simple_answer` (free mode). -/
def generate_simple_answer (question context : List Char) : List Char :=
  let st := simpleScan (splitNL context) none []
  if ¬st.2.isEmpty then
    ("According to the employee handbook (Page ").toList ++ st.1.getD []
      ++ ("), here is the relevant information:\n\n").toList
      ++ List.intercalate ['\n'] (st.2.take 15)
  else
    notFoundMsg


/-- `metadata.get('page', '?')` as interpolated into the context. -/
def pageRepr : Option Nat → List Char
  | some n => (toString n).toList
  | none => ("?").toList


/-- `"\n\n".join(f"[Source: Page {page}]\n{content}" ...)`. -/
def buildContext {S : Type} (chunks : List (RChunk S)) : List Char :=
  List.intercalate ("\n\n").toList
    (chunks.map fun c =>
      ("[Source: Page ").toList ++ pageRepr c.page ++ ("]").toList ++ '\n' :: c.content)


/-- `QAEngine.format_sources`: truncate content to 200 characters with an
ellipsis, carry page, section and score through. -/
def format_sources {S : Type} : List (RChunk S) → List (SourceEntry S)
  | [] => []
  | c :: rest =>
    { page := c.page,
      sectionTitle := c.sectionTitle.getD [],
      content := if 200 < c.content.length
                 then c.content.take 200 ++ ("...").toList
                 else c.content,
      score := c.score } :: format_sources rest


/-- The error answer substituted by `answer_question` when generation
raises `LLMAPIError e`. -/
def generationErrorAnswer (e : List Char) : List Char :=
  ("Sorry, an error occurred while generating the answer: ").toList ++ e


/-- The value returned by one `answer_question` call, together with the
cache left behind and the number of generator invocations made during
the call (`generate_answer_openai` or `generate_simple_answer`). -/
structure AnswerResult (S : Type) where
  answer : List Char
  sources : List (SourceEntry S)
  cache : Cache S
  genCalls : Nat
  deriving Repr


/-- `QAEngine.answer_question`. -/
def answer_question {S : Type} (env : QAEnv S) (question : List Char)
    (cache : Cache S) : AnswerResult S :=
  match (if env.enableCache then cacheLookup cache question else none) with
  | some (a, s) => ⟨a, s, cache, 0⟩
  | none =>
    let relevant_chunks := search_relevant_chunks env question
    if relevant_chunks.isEmpty then
      ⟨notFoundMsg, [], cache, 0⟩
    else
      let context := buildContext relevant_chunks
      let answer :=
        if env.mode = ("paid").toList then
          match generate_answer_openai env question context with
          | .ok a => a
          | .error e => generationErrorAnswer e
        else
          generate_simple_answer question context
      let sources := format_sources relevant_chunks
      let cache' := if env.enableCache then (question, (answer, sources)) :: cache
                    else cache
      ⟨answer, sources, cache', 1⟩


def c8Env : QAEnv Nat :=
  ⟨("free").toList, true, false, fun _ => .error (), fun p => .ok p⟩


def c3Env : QAEnv Nat :=
  ⟨("free").toList, true, false, fun _ => .ok [], fun _ => .error []⟩


def c4Chunk : RChunk Nat :=
  ⟨("Employees get 15 days annual leave.").toList, some 1, none, 2⟩


def c4Env : QAEnv Nat :=
  ⟨("free").toList, true, false, fun _ => .ok [c4Chunk], fun _ => .error ("boom").toList⟩


def c9Env : QAEnv Nat :=
  ⟨("paid").toList, true, true, fun _ => .ok [c4Chunk], fun _ => .error ("quota").toList⟩


def c1Chunk : RChunk Nat :=
  ⟨("Employees get 15 days annual leave.").toList, some 3, none, 0⟩


def c1Env : QAEnv Nat :=
  ⟨("paid").toList, false, true, fun _ => .ok [c1Chunk],
   fun _ => .error ("auth failure").toList⟩


def c1wEnv : QAEnv Nat :=
  ⟨("paid").toList, true, true, fun _ => .ok [c1Chunk],
   fun _ => .error ("rate limit").toList⟩


def c2docs : List PageDoc :=
  [⟨("hello").toList, 1, ("handbook.pdf").toList⟩,
   ⟨("world").toList, 2, ("handbook.pdf").toList⟩]


/-- Spec-side view of one context line: the page digits when the
(stripped) line is a page-bearing source marker. -/
def markerPage (l : List Char) : Option (List Char) :=
  if listStartsWith ("[Source:").toList (pyStrip l) then pySearchPage (pyStrip l)
  else none


/-- The page cited by the final answer header: the page of the last
page-bearing marker among the lines, else the running value `pg`. -/
def lastPageOr (ls : List (List Char)) (pg : Option (List Char)) : Option (List Char) :=
  match (ls.filterMap markerPage).getLast? with
  | some d => some d
  | none => pg


/-- A well-formed section heading line in the sense of the specification:
a numeric ordinal, a period, a space, and a capitalized title (at least
one character after the capital, matching the regex tail `[^\n]+`), all
on one line. -/
def isSpecHeading (h : List Char) : Bool :=
  ¬(h.takeWhile pyIsDigit).isEmpty &&
  (match h.dropWhile pyIsDigit with
   | x :: y :: c :: rest =>
     x = '.' && y = ' ' && pyIsUpper c && ¬rest.isEmpty && decide ('\n' ∉ rest)
   | _ => false)

/-- No position of `s` begins a match of the heading regex when `s` is
scanned on its own. -/
def noHeadingMatch : List Char → Bool
  | [] => true
  | c :: rest => (matchHeading (c :: rest)).isNone && noHeadingMatch rest

/-- The number of well-formed heading lines of a text: the `N` of the
specification sentence about section-aware chunking. -/
def specHeadingLines (text : List Char) : Nat :=
  ((splitNL text).filter isSpecHeading).length

/-- One heading/body block of a sectioned text: a well-formed heading
line followed by a body that starts and ends with a newline and contains
no heading-pattern match of its own. -/
def blockOK (p : List Char × List Char) : Bool :=
  isSpecHeading p.1 && decide (p.2.head? = some '\n')
    && decide (p.2.getLast? = some '\n') && noHeadingMatch p.2

/-- The text assembled from a list of heading/body blocks. -/
def glueBlocks (blocks : List (List Char × List Char)) : List Char :=
  (blocks.map (fun p => p.1 ++ p.2)).flatten

/-- Inert text before the first heading: no heading-pattern match starts
in it and it ends at a line boundary (or is empty). -/
def preOK (pre : List Char) : Bool :=
  noHeadingMatch pre && (pre.isEmpty || decide (pre.getLast? = some '\n'))

/-!
## Lemmas about the regex scan
-/


theorem matchHeading_spec (s m r : List Char) (h : matchHeading s = some (m, r)) :
    s = m ++ r ∧ 0 < m.length ∧ ∃ d m', m = d :: m' ∧ pyIsDigit d = true := by
  unfold matchHeading at h
  split at h
  · exact absurd h (by simp)
  · rename_i hne
    split at h
    · exact absurd h (by simp)
    · rename_i x r2 hdrop
      split at h
      · rename_i hx
        split at h
        · exact absurd h (by simp)
        · rename_i hws
          split at h
          · exact absurd h (by simp)
          · rename_i c r4 hdrop2
            split at h
            · rename_i hup
              split at h
              · exact absurd h (by simp)
              · rename_i htl
                injection h with h'
                injection h' with hm hr
                subst hm
                subst hr
                refine ⟨?_, ?_, ?_⟩
                · conv_lhs => rw [← List.takeWhile_append_dropWhile pyIsDigit s]
                  rw [hdrop]
                  conv_lhs =>
                    rw [show r2 = r2.takeWhile pyIsSpace ++ r2.dropWhile pyIsSpace from
                          (List.takeWhile_append_dropWhile pyIsSpace r2).symm]
                  rw [hdrop2]
                  conv_lhs =>
                    rw [show r4 = r4.takeWhile (fun y => y ≠ '\n')
                          ++ r4.dropWhile (fun y => y ≠ '\n') from
                          (List.takeWhile_append_dropWhile (fun y => y ≠ '\n') r4).symm]
                  simp
                · have : s.takeWhile pyIsDigit ≠ [] := by
                    simpa [List.isEmpty_iff] using hne
                  cases hd : s.takeWhile pyIsDigit with
                    | nil => exact absurd hd this
                    | cons a as => simp
                · have hne' : s.takeWhile pyIsDigit ≠ [] := by
                    simpa [List.isEmpty_iff] using hne
                  cases hd : s.takeWhile pyIsDigit with
                    | nil => exact absurd hd hne'
                    | cons a as =>
                      refine ⟨a, as ++ x :: r2.takeWhile pyIsSpace
                        ++ c :: r4.takeWhile (fun y => y ≠ '\n'), by simp, ?_⟩
                      exact List.mem_takeWhile_imp
                        (by rw [hd]; exact List.mem_cons_self a as)
            · exact absurd h (by simp)
      · exact absurd h (by simp)


theorem reSplitAuxF_fuel (f1 : Nat) : ∀ (f2 : Nat) (s acc : List Char),
    s.length ≤ f1 → s.length ≤ f2 → reSplitAuxF f1 s acc = reSplitAuxF f2 s acc := by
  induction f1 with
  | zero =>
    intro f2 s acc h1 _
    have : s = [] := List.length_eq_zero.mp (Nat.le_zero.mp h1)
    subst this
    cases f2 <;> rfl
  | succ f ih =>
    intro f2 s acc h1 h2
    cases s with
    | nil => cases f2 <;> rfl
    | cons c rest =>
      cases f2 with
      | zero => exact absurd h2 (by simp)
      | succ f2' =>
        cases hm : matchHeading (c :: rest) with
        | some p =>
          obtain ⟨m, r⟩ := p
          obtain ⟨he, hmlen, -⟩ := matchHeading_spec _ _ _ hm
          have hr : r.length ≤ rest.length := by
            have : (c :: rest).length = m.length + r.length := by
              rw [he, List.length_append]
            simp only [List.length_cons] at this
            omega
          simp only [List.length_cons] at h1 h2
          simp only [reSplitAuxF, hm]
          rw [ih f2' r [] (by omega) (by omega)]
        | none =>
          simp only [List.length_cons] at h1 h2
          simp only [reSplitAuxF, hm]
          rw [ih f2' rest (c :: acc) (by omega) (by omega)]


theorem reScan_nil (acc : List Char) : reScan [] acc = [acc.reverse] := rfl


theorem reScan_cons_match {c : Char} {rest m r : List Char} (acc : List Char)
    (h : matchHeading (c :: rest) = some (m, r)) :
    reScan (c :: rest) acc = acc.reverse :: m :: reScan r [] := by
  obtain ⟨he, hmlen, -⟩ := matchHeading_spec _ _ _ h
  have hr : r.length ≤ rest.length := by
    have : (c :: rest).length = m.length + r.length := by rw [he, List.length_append]
    simp only [List.length_cons] at this
    omega
  show reSplitAuxF (rest.length + 1) (c :: rest) acc = _
  simp only [reSplitAuxF, h]
  rw [reSplitAuxF_fuel rest.length r.length r [] hr (le_refl _)]
  rfl


theorem reScan_cons_none {c : Char} {rest : List Char} (acc : List Char)
    (h : matchHeading (c :: rest) = none) :
    reScan (c :: rest) acc = reScan rest (c :: acc) := by
  show reSplitAuxF (rest.length + 1) (c :: rest) acc = _
  simp only [reSplitAuxF, h]
  rfl


theorem split_by_sections_sample :
    split_by_sections ("1. Alpha\nbody\n2. Beta x\nmore").toList =
      [⟨"1. Alpha".toList, "1. Alpha\n\nbody\n".toList, 15⟩,
       ⟨"2. Beta x".toList, "2. Beta x\n\nmore".toList, 15⟩] := by decide


/-!
## Lemmas about the QA engine
-/


theorem cacheLookup_cons_self {S : Type} (q : List Char)
    (v : List Char × List (SourceEntry S)) (c : Cache S) :
    cacheLookup ((q, v) :: c) q = some v := by
  simp [cacheLookup]


theorem format_sources_eq_map {S : Type} (chunks : List (RChunk S)) :
    format_sources chunks = chunks.map (fun c =>
      { page := c.page,
        sectionTitle := c.sectionTitle.getD [],
        content := if 200 < c.content.length
                   then c.content.take 200 ++ ("...").toList
                   else c.content,
        score := c.score }) := by
  induction chunks with
  | nil => rfl
  | cons c rest ih => simp [format_sources, ih]


theorem generate_answer_openai_error {S : Type} (env : QAEnv S) (q ctx e : List Char)
    (hmode : env.mode = ("paid").toList) (hkey : env.hasKey = true)
    (hllm : env.llm (promptOf q ctx) = .error e) :
    generate_answer_openai env q ctx = .error (("OpenAI API error: ").toList ++ e) := by
  unfold generate_answer_openai get_llm
  simp [hmode, hkey, hllm]


/-- C7: for every retrieved chunk, `format_sources` emits one entry whose
content preview is the chunk content when it has at most 200 characters
and its first 200 characters followed by `"..."` otherwise, and which
carries the chunk's page (`none` standing for the `"?"` default), its
section metadata (empty string default) and its score unchanged. -/
theorem c7_format_sources_truncates_and_preserves {S : Type} (chunks : List (RChunk S)) :
    (format_sources chunks).length = chunks.length ∧
    ∀ i : Nat, (format_sources chunks)[i]? = (chunks[i]?).map (fun c =>
      { page := c.page,
        sectionTitle := c.sectionTitle.getD [],
        content := if c.content.length ≤ 200
                   then c.content
                   else c.content.take 200 ++ ("...").toList,
        score := c.score }) := by
  rw [format_sources_eq_map]
  refine ⟨by simp, fun i => ?_⟩
  rw [List.getElem?_map]
  cases h : chunks[i]? with
  | none => rfl
  | some c =>
    simp only [Option.map_some']
    congr 1
    by_cases hlen : 200 < c.content.length
    · rw [if_pos hlen, if_neg (by omega)]
    · rw [if_neg hlen, if_pos (by omega)]


/-- C8: when the similarity search raises internally, retrieval returns
an empty list instead of propagating the error. -/
theorem c8_retrieval_error_returns_empty {S : Type} (env : QAEnv S) (q : List Char)
    (h : env.search q = Except.error ()) :
    search_relevant_chunks env q = [] := by
  unfold search_relevant_chunks
  rw [h]


theorem c8_witness :
    c8Env.search ("How many vacation days?").toList = Except.error () ∧
    search_relevant_chunks c8Env ("How many vacation days?").toList = [] :=
  ⟨rfl, c8_retrieval_error_returns_empty c8Env ("How many vacation days?").toList rfl⟩


theorem answer_question_no_results {S : Type} (env : QAEnv S) (q : List Char)
    (c : Cache S)
    (hs : search_relevant_chunks env q = [])
    (hc : env.enableCache = true → cacheLookup c q = none) :
    answer_question env q c = ⟨notFoundMsg, [], c, 0⟩ := by
  unfold answer_question
  have hlook : (if env.enableCache then cacheLookup c q else none) = none := by
    cases hec : env.enableCache
    · simp
    · simpa using hc hec
  rw [hlook]
  simp [hs]

/-- C3: when retrieval comes back empty (and the question is not already
cached), `answer_question` returns the fixed not-found message with empty
sources, invokes no generator (`genCalls = 0`), and leaves the cache
untouched. -/
theorem c3_empty_retrieval_short_circuits {S : Type} (env : QAEnv S) (q : List Char)
    (c : Cache S)
    (hs : search_relevant_chunks env q = [])
    (hc : env.enableCache = true → cacheLookup c q = none) :
    answer_question env q c = ⟨notFoundMsg, [], c, 0⟩ :=
  answer_question_no_results env q c hs hc


theorem c3_witness :
    search_relevant_chunks c3Env ("q").toList = [] ∧
    answer_question c3Env ("q").toList [] = ⟨notFoundMsg, [], [], 0⟩ :=
  ⟨rfl, c3_empty_retrieval_short_circuits c3Env ("q").toList [] rfl (fun _ => rfl)⟩


/-- C4: with caching enabled and an unchanged environment (same mode, no
cache clear), asking the same question twice gives identical answer text
and sources, and the two calls together invoke a generator at most once. -/
theorem c4_answer_question_idempotent {S : Type} (env : QAEnv S) (q : List Char)
    (c : Cache S) (hec : env.enableCache = true) :
    (answer_question env q (answer_question env q c).cache).answer
        = (answer_question env q c).answer ∧
    (answer_question env q (answer_question env q c).cache).sources
        = (answer_question env q c).sources ∧
    (answer_question env q c).genCalls
        + (answer_question env q (answer_question env q c).cache).genCalls ≤ 1 := by
  cases hl : cacheLookup c q with
  | some v =>
    obtain ⟨a, s⟩ := v
    have h1 : answer_question env q c = ⟨a, s, c, 0⟩ := by
      unfold answer_question
      simp [hec, hl]
    rw [h1]
    have h2 : answer_question env q (⟨a, s, c, 0⟩ : AnswerResult S).cache = ⟨a, s, c, 0⟩ := by
      unfold answer_question
      simp [hec, hl]
    rw [h2]
    exact ⟨rfl, rfl, by simp⟩
  | none =>
    cases hse : (search_relevant_chunks env q).isEmpty with
    | true =>
      have h1 : answer_question env q c = ⟨notFoundMsg, [], c, 0⟩ :=
        answer_question_no_results env q c
          (by simpa [List.isEmpty_iff] using hse) (fun _ => hl)
      rw [h1]
      have h2 : answer_question env q (⟨notFoundMsg, [], c, 0⟩ : AnswerResult S).cache
          = ⟨notFoundMsg, [], c, 0⟩ :=
        answer_question_no_results env q c
          (by simpa [List.isEmpty_iff] using hse) (fun _ => hl)
      rw [h2]
      exact ⟨rfl, rfl, by simp⟩
    | false =>
      unfold answer_question
      simp only [hec, if_true, hl, hse, Bool.false_eq_true, if_false]
      simp [cacheLookup_cons_self]


theorem c4_witness :
    c4Env.enableCache = true ∧
    ((answer_question c4Env ("q").toList (answer_question c4Env ("q").toList []).cache).answer
        = (answer_question c4Env ("q").toList []).answer ∧
     (answer_question c4Env ("q").toList (answer_question c4Env ("q").toList []).cache).sources
        = (answer_question c4Env ("q").toList []).sources ∧
     (answer_question c4Env ("q").toList []).genCalls
        + (answer_question c4Env ("q").toList
            (answer_question c4Env ("q").toList []).cache).genCalls ≤ 1) :=
  ⟨rfl, c4_answer_question_idempotent c4Env ("q").toList [] rfl⟩


/-- C9: with caching enabled, a failed generative call stores the
substituted error answer in the cache under the question, and the next
identical question returns that cached error answer with no further
generator invocation. -/
theorem c9_generation_error_cached {S : Type} (env : QAEnv S) (q : List Char)
    (c : Cache S) (cs : List (RChunk S)) (e : List Char)
    (hec : env.enableCache = true)
    (hmode : env.mode = ("paid").toList)
    (hkey : env.hasKey = true)
    (hl : cacheLookup c q = none)
    (hs : env.search q = Except.ok cs)
    (hcs : cs ≠ [])
    (hllm : env.llm (promptOf q (buildContext cs)) = .error e) :
    cacheLookup (answer_question env q c).cache q
        = some (generationErrorAnswer (("OpenAI API error: ").toList ++ e),
                format_sources cs) ∧
    answer_question env q (answer_question env q c).cache
        = ⟨generationErrorAnswer (("OpenAI API error: ").toList ++ e),
           format_sources cs, (answer_question env q c).cache, 0⟩ := by
  have hsrc : search_relevant_chunks env q = cs := by
    unfold search_relevant_chunks
    rw [hs]
  have hne : cs.isEmpty = false := by
    cases cs with
    | nil => exact absurd rfl hcs
    | cons a as => rfl
  have h1 : answer_question env q c
      = ⟨generationErrorAnswer (("OpenAI API error: ").toList ++ e),
         format_sources cs,
         (q, (generationErrorAnswer (("OpenAI API error: ").toList ++ e),
              format_sources cs)) :: c, 1⟩ := by
    unfold answer_question
    simp [hec, hl, hsrc, hne, hmode,
      generate_answer_openai_error env q (buildContext cs) e hmode hkey hllm]
  rw [h1]
  exact ⟨cacheLookup_cons_self q _ c, by
    unfold answer_question
    simp [hec, cacheLookup_cons_self]⟩


theorem c9_witness :
    cacheLookup (answer_question c9Env ("q").toList []).cache ("q").toList
        = some (generationErrorAnswer (("OpenAI API error: ").toList ++ ("quota").toList),
                format_sources [c4Chunk]) ∧
    answer_question c9Env ("q").toList (answer_question c9Env ("q").toList []).cache
        = ⟨generationErrorAnswer (("OpenAI API error: ").toList ++ ("quota").toList),
           format_sources [c4Chunk], (answer_question c9Env ("q").toList []).cache, 0⟩ :=
  c9_generation_error_cached c9Env ("q").toList [] [c4Chunk] ("quota").toList
    rfl rfl rfl rfl rfl (by decide) rfl


theorem generate_simple_answer_shape (q ctx : List Char) :
    generate_simple_answer q ctx = notFoundMsg ∨
    ∃ t, generate_simple_answer q ctx
        = ("According to the employee handbook (Page ").toList ++ t := by
  simp only [generate_simple_answer]
  split
  · right
    exact ⟨(simpleScan (splitNL ctx) none []).1.getD []
        ++ ((("), here is the relevant information:\n\n").toList)
            ++ List.intercalate ['\n'] (((simpleScan (splitNL ctx) none []).2).take 15)),
      by rw [List.append_assoc, List.append_assoc]⟩
  · left
    rfl


theorem generationErrorAnswer_ne_notFound (e : List Char) :
    generationErrorAnswer e ≠ notFoundMsg := by
  intro h
  have hlen := congrArg List.length h
  simp only [generationErrorAnswer, List.length_append] at hlen
  have h1 : (("Sorry, an error occurred while generating the answer: ").toList).length = 54 := by
    decide
  have h2 : notFoundMsg.length = 53 := by decide
  omega


theorem ne_of_first_char {a b : List Char} {x y : Char}
    (ha : a[0]? = some x) (hb : b[0]? = some y) (hxy : x ≠ y) : a ≠ b := by
  intro h
  rw [h, hb] at ha
  exact hxy (Option.some.inj ha).symm


theorem generationErrorAnswer_ne_according (e t : List Char) :
    generationErrorAnswer e
      ≠ ("According to the employee handbook (Page ").toList ++ t := by
  apply ne_of_first_char (x := 'S') (y := 'A')
  · rfl
  · rfl
  · decide


/-- C1 counterexample: in paid mode with a failing provider,
`answer_question` does NOT fail: it returns normally, substituting an
error-message string as the answer (the `except LLMAPIError` branch of
`answer_question`), so no `GenerationError` reaches the caller.  The
substituted text is neither the extractive answer nor the not-found
message. -/
theorem c1_counterexample :
    (answer_question c1Env ("How many vacation days?").toList []).answer
      = ("Sorry, an error occurred while generating the answer: OpenAI API error: auth failure").toList
    ∧ (answer_question c1Env ("How many vacation days?").toList []).answer
      ≠ generate_simple_answer ("How many vacation days?").toList (buildContext [c1Chunk])
    ∧ (answer_question c1Env ("How many vacation days?").toList []).genCalls = 1 := by
  refine ⟨by decide, by decide, by decide⟩


/-- C1 amended: on provider failure in paid mode,
`generate_answer_openai` itself fails with the wrapped `LLMAPIError`
(the model of `GenerationError`) and never returns extractive text, but
the top-level `answer_question` catches that error and returns an
error-message answer to the caller instead of propagating the failure;
the returned answer is never silently replaced by extractive output or
by the not-found message. -/
theorem c1_generation_error_not_propagated {S : Type} (env : QAEnv S) (q : List Char)
    (c : Cache S) (cs : List (RChunk S)) (e : List Char)
    (hmode : env.mode = ("paid").toList)
    (hkey : env.hasKey = true)
    (hc : env.enableCache = true → cacheLookup c q = none)
    (hs : env.search q = Except.ok cs)
    (hcs : cs ≠ [])
    (hllm : env.llm (promptOf q (buildContext cs)) = .error e) :
    generate_answer_openai env q (buildContext cs)
        = .error (("OpenAI API error: ").toList ++ e) ∧
    (answer_question env q c).answer
        = generationErrorAnswer (("OpenAI API error: ").toList ++ e) ∧
    (answer_question env q c).answer ≠ generate_simple_answer q (buildContext cs) ∧
    (answer_question env q c).answer ≠ notFoundMsg := by
  have hgen := generate_answer_openai_error env q (buildContext cs) e hmode hkey hllm
  have hsrc : search_relevant_chunks env q = cs := by
    unfold search_relevant_chunks
    rw [hs]
  have hne : cs.isEmpty = false := by
    cases cs with
    | nil => exact absurd rfl hcs
    | cons a as => rfl
  have hlook : (if env.enableCache then cacheLookup c q else none) = none := by
    cases hec : env.enableCache
    · simp
    · simpa using hc hec
  have hans : (answer_question env q c).answer
      = generationErrorAnswer (("OpenAI API error: ").toList ++ e) := by
    unfold answer_question
    rw [hlook]
    simp [hsrc, hne, hmode, hgen]
  refine ⟨hgen, hans, ?_, ?_⟩
  · rw [hans]
    rcases generate_simple_answer_shape q (buildContext cs) with h | ⟨t, h⟩
    · rw [h]
      exact generationErrorAnswer_ne_notFound _
    · rw [h]
      exact generationErrorAnswer_ne_according _ _
  · rw [hans]
    exact generationErrorAnswer_ne_notFound _


theorem c1_witness :
    generate_answer_openai c1wEnv ("q").toList (buildContext [c1Chunk])
        = .error (("OpenAI API error: rate limit").toList) ∧
    (answer_question c1wEnv ("q").toList []).answer
        = generationErrorAnswer (("OpenAI API error: rate limit").toList) ∧
    (answer_question c1wEnv ("q").toList []).answer
        ≠ generate_simple_answer ("q").toList (buildContext [c1Chunk]) ∧
    (answer_question c1wEnv ("q").toList []).answer ≠ notFoundMsg :=
  c1_generation_error_not_propagated c1wEnv ("q").toList [] [c1Chunk]
    ("rate limit").toList rfl rfl (fun _ => rfl) rfl (by decide) rfl


/-!
## C2: chunk ids
-/


theorem enum_map_chunk_id {α : Type} (l : List α) (f : Nat × α → DocChunk)
    (hf : ∀ p, (f p).meta.chunk_id = p.1) :
    (l.enum.map f).map (fun d => d.meta.chunk_id) = List.range l.length := by
  rw [List.map_map]
  have : ((fun d => d.meta.chunk_id) ∘ f) = Prod.fst := funext fun p => hf p
  rw [this, List.enum_map_fst]


/-- C2 counterexample: a two-page document with no section headings takes
the generic fallback, whose `chunk_id` restarts at 0 for every page; the
ids of the pass are `[0, 0]` — neither unique nor strictly monotonic. -/
theorem c2_counterexample :
    ((split_documents (fun t => [t]) c2docs true).map (fun d => d.meta.chunk_id) = [0, 0]) ∧
    ¬ List.Pairwise (· < ·)
        ((split_documents (fun t => [t]) c2docs true).map (fun d => d.meta.chunk_id)) ∧
    ¬ ((split_documents (fun t => [t]) c2docs true).map (fun d => d.meta.chunk_id)).Nodup := by
  refine ⟨by decide, by decide, by decide⟩


/-- C2 amended: in a section-aware pass the chunk ids are `0,1,2,...`
across the whole pass (unique and strictly monotonic), while in the
generic fallback the ids are unique and strictly monotonic only within
the chunks of each single page document, restarting at 0 per page. -/
theorem c2_chunk_ids_monotone (splitText : List Char → List (List Char))
    (documents : List PageDoc) :
    (0 < (split_by_sections (fullTextOf documents)).length →
      List.Pairwise (· < ·)
        ((split_documents splitText documents true).map (fun d => d.meta.chunk_id))) ∧
    (∀ b : Bool, (b = false ∨ (split_by_sections (fullTextOf documents)).length = 0) →
      split_documents splitText documents b = documents.flatMap (fallbackChunks splitText) ∧
      ∀ d ∈ documents,
        List.Pairwise (· < ·)
          ((fallbackChunks splitText d).map (fun ch => ch.meta.chunk_id))) := by
  constructor
  · intro hpos
    unfold split_documents
    simp only [if_true, true_and]
    rw [if_pos hpos]
    rw [enum_map_chunk_id _ _ (fun p => rfl)]
    exact List.pairwise_lt_range _
  · intro b hb
    constructor
    · unfold split_documents
      rcases hb with hb | hb
      · subst hb
        simp
      · rw [if_neg]
        intro ⟨h1, h2⟩
        rw [if_pos h1] at h2
        omega
    · intro d _
      unfold fallbackChunks
      rw [enum_map_chunk_id _ _ (fun p => rfl)]
      exact List.pairwise_lt_range _


theorem c2_witness :
    (0 < (split_by_sections (fullTextOf c2docs)).length →
      List.Pairwise (· < ·)
        ((split_documents (fun t => [t]) c2docs true).map (fun d => d.meta.chunk_id))) ∧
    (∀ b : Bool, (b = false ∨ (split_by_sections (fullTextOf c2docs)).length = 0) →
      split_documents (fun t => [t]) c2docs b
          = c2docs.flatMap (fallbackChunks (fun t => [t])) ∧
      ∀ d ∈ c2docs,
        List.Pairwise (· < ·)
          ((fallbackChunks (fun t => [t]) d).map (fun ch => ch.meta.chunk_id))) :=
  c2_chunk_ids_monotone (fun t => [t]) c2docs


/-!
## C6: the extractive generator
-/


theorem listStartsWith_append (p s : List Char) : listStartsWith p (p ++ s) = true := by
  induction p with
  | nil => rfl
  | cons c cs ih => simp [listStartsWith, ih]


theorem lastPageOr_isSome (ls : List (List Char)) (pg : Option (List Char))
    (h : pg.isSome = true) : (lastPageOr ls pg).isSome = true := by
  unfold lastPageOr
  cases hr : (ls.filterMap markerPage).getLast? with
  | none => exact h
  | some d => rfl


theorem lastPageOr_cons_marker {l d : List Char} (ls : List (List Char))
    (pg : Option (List Char)) (h : markerPage l = some d) :
    lastPageOr (l :: ls) pg = lastPageOr ls (some d) := by
  unfold lastPageOr
  rw [List.filterMap_cons_some h]
  cases hr : ls.filterMap markerPage with
  | nil => simp
  | cons x xs =>
    have hy : ∃ y, (x :: xs).getLast? = some y := by
      cases hxy : (x :: xs).getLast? with
      | none => exact absurd (List.getLast?_eq_none_iff.mp hxy) (by simp)
      | some y => exact ⟨y, rfl⟩
    obtain ⟨y, hy⟩ := hy
    rw [List.getLast?_cons_cons, hy]


theorem lastPageOr_cons_nonmarker {l : List Char} (ls : List (List Char))
    (pg : Option (List Char)) (h : markerPage l = none) :
    lastPageOr (l :: ls) pg = lastPageOr ls pg := by
  unfold lastPageOr
  rw [List.filterMap_cons_none h]


theorem simpleScan_spec (ls : List (List Char)) :
    ∀ (pg : Option (List Char)) (acc : List (List Char)),
    (simpleScan ls pg acc).1 = lastPageOr ls pg ∧
    ∃ t, (simpleScan ls pg acc).2 = acc ++ t ∧
      (∀ x ∈ t, listStartsWith ("• ").toList x = true) ∧
      (t ≠ [] → (lastPageOr ls pg).isSome = true) := by
  induction ls with
  | nil =>
    intro pg acc
    exact ⟨rfl, [], by simp [simpleScan], by simp, fun h => absurd rfl h⟩
  | cons l ls ih =>
    intro pg acc
    simp only [simpleScan]
    by_cases hsw : listStartsWith ("[Source:").toList (pyStrip l) = true
    · rw [if_pos hsw]
      cases hpp : pySearchPage (pyStrip l) with
      | some d =>
        have hmp : markerPage l = some d := by unfold markerPage; rw [if_pos hsw, hpp]
        obtain ⟨h1, t, h2, h3, h4⟩ := ih (some d) acc
        refine ⟨?_, t, h2, h3, ?_⟩
        · rw [h1, lastPageOr_cons_marker ls pg hmp]
        · intro ht
          rw [lastPageOr_cons_marker ls pg hmp]
          exact h4 ht
      | none =>
        have hmp : markerPage l = none := by unfold markerPage; rw [if_pos hsw, hpp]
        obtain ⟨h1, t, h2, h3, h4⟩ := ih pg acc
        refine ⟨?_, t, h2, h3, ?_⟩
        · rw [h1, lastPageOr_cons_nonmarker ls pg hmp]
        · intro ht
          rw [lastPageOr_cons_nonmarker ls pg hmp]
          exact h4 ht
    · rw [if_neg hsw]
      have hmp : markerPage l = none := by unfold markerPage; rw [if_neg hsw]
      by_cases hc : (¬(pyStrip l).isEmpty ∧ pg.isSome)
      · rw [if_pos hc]
        obtain ⟨h1, t, h2, h3, h4⟩ := ih pg (acc ++ [("• ").toList ++ pyStrip l])
        refine ⟨?_, (("• ").toList ++ pyStrip l) :: t, ?_, ?_, ?_⟩
        · rw [h1, lastPageOr_cons_nonmarker ls pg hmp]
        · rw [h2]
          simp
        · intro x hx
          rcases List.mem_cons.mp hx with hx | hx
          · rw [hx]
            exact listStartsWith_append _ _
          · exact h3 x hx
        · intro _
          rw [lastPageOr_cons_nonmarker ls pg hmp]
          exact lastPageOr_isSome ls pg hc.2
      · rw [if_neg hc]
        obtain ⟨h1, t, h2, h3, h4⟩ := ih pg acc
        refine ⟨?_, t, h2, h3, ?_⟩
        · rw [h1, lastPageOr_cons_nonmarker ls pg hmp]
        · intro ht
          rw [lastPageOr_cons_nonmarker ls pg hmp]
          exact h4 ht


/-- C6 counterexample: the context carries a `Page 1` marker followed by
content `Alpha`, then a `Page 2` marker with content `Beta`.  The answer
cites only page 2 — the most recent marker of the whole context — for
every bullet: `Alpha` is emitted, yet `Page 1` (the most recent marker
seen before `Alpha`) appears nowhere in the answer. -/
theorem c6_counterexample :
    generate_simple_answer ("q").toList
        ("[Source: Page 1]\nAlpha\n[Source: Page 2]\nBeta").toList
      = ("According to the employee handbook (Page 2), here is the relevant information:\n\n• Alpha\n• Beta").toList
    ∧ containsSub ("• Alpha").toList
        (generate_simple_answer ("q").toList
          ("[Source: Page 1]\nAlpha\n[Source: Page 2]\nBeta").toList) = true
    ∧ containsSub ("Page 1").toList
        (generate_simple_answer ("q").toList
          ("[Source: Page 1]\nAlpha\n[Source: Page 2]\nBeta").toList) = false
    ∧ containsSub ("Page 2").toList
        (generate_simple_answer ("q").toList
          ("[Source: Page 1]\nAlpha\n[Source: Page 2]\nBeta").toList) = true := by
  refine ⟨by decide, by decide, by decide, by decide⟩


/-- C6 amended: in extractive mode the answer is either the fixed
not-found message (exactly when the context has no page-bearing marker
or no usable content line), or a single header citing the page of the
LAST page-bearing marker of the whole context followed by at most 15
bullet lines; all bullets share that one page attribution. -/
theorem c6_extractive_answer_shape (q ctx : List Char) :
    ((splitNL ctx).filterMap markerPage = [] →
      generate_simple_answer q ctx = notFoundMsg) ∧
    (generate_simple_answer q ctx ≠ notFoundMsg →
      ∃ pg bullets,
        ((splitNL ctx).filterMap markerPage).getLast? = some pg ∧
        bullets ≠ [] ∧ bullets.length ≤ 15 ∧
        (∀ x ∈ bullets, listStartsWith ("• ").toList x = true) ∧
        generate_simple_answer q ctx
          = ("According to the employee handbook (Page ").toList ++ pg
            ++ ("), here is the relevant information:\n\n").toList
            ++ List.intercalate ['\n'] bullets) := by
  obtain ⟨h1, t, h2, h3, h4⟩ := simpleScan_spec (splitNL ctx) none []
  simp only [List.nil_append] at h2
  constructor
  · intro hfm
    have hlp : lastPageOr (splitNL ctx) none = none := by
      unfold lastPageOr
      rw [hfm]
      rfl
    have ht : t = [] := by
      by_contra hne
      have := h4 hne
      rw [hlp] at this
      simp at this
    simp only [generate_simple_answer]
    rw [h2, ht]
    simp
  · intro hne
    have ht : t ≠ [] := by
      intro h0
      apply hne
      simp only [generate_simple_answer]
      rw [h2, h0]
      simp
    have hsome := h4 ht
    cases hfm : ((splitNL ctx).filterMap markerPage).getLast? with
    | none =>
      have hlp : lastPageOr (splitNL ctx) none = none := by
        unfold lastPageOr
        rw [hfm]
      rw [hlp] at hsome
      simp at hsome
    | some pg =>
      have hpg1 : (simpleScan (splitNL ctx) none []).1 = some pg := by
        rw [h1]
        unfold lastPageOr
        rw [hfm]
      refine ⟨pg, t.take 15, rfl, ?_, ?_, ?_, ?_⟩
      · cases t with
        | nil => exact absurd rfl ht
        | cons x xs => simp
      · rw [List.length_take]
        exact min_le_left _ _
      · intro x hx
        exact h3 x (List.mem_of_mem_take hx)
      · simp only [generate_simple_answer]
        rw [h2, hpg1]
        rw [if_pos (by cases t with | nil => exact absurd rfl ht | cons x xs => simp)]
        rfl


theorem c6_witness :
    ∃ pg bullets,
      ((splitNL ("[Source: Page 1]\nAlpha\n[Source: Page 2]\nBeta").toList).filterMap
          markerPage).getLast? = some pg ∧
      bullets ≠ [] ∧ bullets.length ≤ 15 ∧
      (∀ x ∈ bullets, listStartsWith ("• ").toList x = true) ∧
      generate_simple_answer ("q").toList
          ("[Source: Page 1]\nAlpha\n[Source: Page 2]\nBeta").toList
        = ("According to the employee handbook (Page ").toList ++ pg
          ++ ("), here is the relevant information:\n\n").toList
          ++ List.intercalate ['\n'] bullets :=
  (c6_extractive_answer_shape ("q").toList
    ("[Source: Page 1]\nAlpha\n[Source: Page 2]\nBeta").toList).2 (by decide)

/-!
## Character-class facts
-/

theorem pyIsDigit_val {c : Char} (h : pyIsDigit c = true) :
    48 ≤ c.val ∧ c.val ≤ 57 := by
  unfold pyIsDigit Char.isDigit at h
  rw [Bool.and_eq_true, decide_eq_true_iff, decide_eq_true_iff] at h
  exact h

theorem uint32_le_trans {a b k : UInt32} (h1 : a ≤ b) (h2 : b ≤ k) : a ≤ k := by
  rw [UInt32.le_def, BitVec.le_def] at h1 h2 ⊢
  omega

theorem pyIsDigit_not_space {c : Char} (h : pyIsDigit c = true) : pyIsSpace c = false := by
  obtain ⟨h1, h2⟩ := pyIsDigit_val h
  unfold pyIsSpace
  simp only [Bool.or_eq_false_iff, decide_eq_false_iff_not]
  refine ⟨⟨⟨⟨⟨?_, ?_⟩, ?_⟩, ?_⟩, ?_⟩, ?_⟩ <;>
    · intro he
      subst he
      exact absurd h1 (by decide)

theorem pyIsDigit_not_upper {c : Char} (h : pyIsDigit c = true) : pyIsUpper c = false := by
  obtain ⟨h1, h2⟩ := pyIsDigit_val h
  unfold pyIsUpper
  have hn : ¬('A' ≤ c) := by
    intro hA
    have hA' : ('A' : Char).val ≤ c.val := hA
    exact absurd (uint32_le_trans hA' h2) (by decide)
  simp [hn]

theorem pyIsUpper_val {c : Char} (h : pyIsUpper c = true) :
    65 ≤ c.val ∧ c.val ≤ 90 := by
  unfold pyIsUpper at h
  rw [Bool.and_eq_true, decide_eq_true_iff, decide_eq_true_iff] at h
  exact h

theorem pyIsUpper_not_space {c : Char} (h : pyIsUpper c = true) : pyIsSpace c = false := by
  obtain ⟨h1, h2⟩ := pyIsUpper_val h
  unfold pyIsSpace
  simp only [Bool.or_eq_false_iff, decide_eq_false_iff_not]
  refine ⟨⟨⟨⟨⟨?_, ?_⟩, ?_⟩, ?_⟩, ?_⟩, ?_⟩ <;>
    · intro he
      subst he
      exact absurd h1 (by decide)

theorem pyIsUpper_ne_newline {c : Char} (h : pyIsUpper c = true) : c ≠ '\n' := by
  obtain ⟨h1, h2⟩ := pyIsUpper_val h
  intro he
  subst he
  exact absurd h1 (by decide)

/-!
## takeWhile/dropWhile over appends, getLast? helpers
-/

theorem takeWhile_append_stop {p : Char → Bool} (s k : List Char)
    (h : s.dropWhile p ≠ []) :
    (s ++ k).takeWhile p = s.takeWhile p ∧
    (s ++ k).dropWhile p = s.dropWhile p ++ k := by
  induction s with
  | nil => exact absurd rfl h
  | cons c cs ih =>
    by_cases hc : p c
    · have h' : cs.dropWhile p ≠ [] := by
        simpa [List.dropWhile_cons, hc] using h
      obtain ⟨h1, h2⟩ := ih h'
      simp [List.takeWhile_cons, List.dropWhile_cons, hc, h1, h2]
    · simp [List.takeWhile_cons, List.dropWhile_cons, hc]

theorem takeWhile_append_all {p : Char → Bool} (a k : List Char)
    (ha : ∀ x ∈ a, p x = true) :
    (a ++ k).takeWhile p = a ++ k.takeWhile p ∧
    (a ++ k).dropWhile p = k.dropWhile p := by
  induction a with
  | nil => simp
  | cons c cs ih =>
    have hc : p c = true := ha c (List.mem_cons_self c cs)
    obtain ⟨h1, h2⟩ := ih (fun x hx => ha x (List.mem_cons_of_mem c hx))
    simp [List.takeWhile_cons, List.dropWhile_cons, hc, h1, h2]

theorem getLast?_mem {s : List Char} {c : Char} (h : s.getLast? = some c) : c ∈ s := by
  induction s with
  | nil => simp at h
  | cons a as ih =>
    cases as with
    | nil =>
      simp only [List.getLast?_singleton, Option.some.injEq] at h
      simp [h]
    | cons b bs =>
      rw [List.getLast?_cons_cons] at h
      exact List.mem_cons_of_mem a (ih h)

theorem getLast?_cons_of_ne_nil {a : Char} {as : List Char} (h : as ≠ []) :
    (a :: as).getLast? = as.getLast? := by
  cases as with
  | nil => exact absurd rfl h
  | cons b bs => exact List.getLast?_cons_cons

theorem dropWhile_digit_ne_nil {s : List Char} (h : s.getLast? = some '\n') :
    s.dropWhile pyIsDigit ≠ [] := by
  intro h0
  have hall := List.dropWhile_eq_nil_iff.mp h0
  have := hall _ (getLast?_mem h)
  exact absurd this (by decide)

/-- A failed heading-regex attempt at a position whose text ends with a
newline stays failed when more text starting with a digit follows: the
`[^\n]+` tail cannot cross the final newline, and the `\s+` run cannot
absorb the leading digit of the continuation. -/
theorem matchHeading_append_none {s : List Char} (k : List Char)
    (hlast : s.getLast? = some '\n')
    (hk : ∃ d ks, k = d :: ks ∧ pyIsDigit d = true)
    (hs : matchHeading s = none) :
    matchHeading (s ++ k) = none := by
  obtain ⟨d, ks, hkeq, hd⟩ := hk
  have hstop1 : s.dropWhile pyIsDigit ≠ [] := dropWhile_digit_ne_nil hlast
  obtain ⟨tw1, dw1⟩ := takeWhile_append_stop s k hstop1
  unfold matchHeading at hs ⊢
  rw [tw1, dw1]
  by_cases hds : (s.takeWhile pyIsDigit).isEmpty
  · rw [if_pos hds]
  · rw [if_neg hds]
    rw [if_neg hds] at hs
    cases hr1 : s.dropWhile pyIsDigit with
    | nil => exact absurd hr1 hstop1
    | cons x r1t =>
      rw [hr1] at hs
      have hs1 : (if x = '.' then
          if (r1t.takeWhile pyIsSpace).isEmpty = true then none
          else
            match r1t.dropWhile pyIsSpace with
            | [] => none
            | c :: r4 =>
              if pyIsUpper c = true then
                if (r4.takeWhile (fun y => y ≠ '\n')).isEmpty = true then none
                else
                  some (s.takeWhile pyIsDigit ++ x :: r1t.takeWhile pyIsSpace
                          ++ c :: r4.takeWhile (fun y => y ≠ '\n'),
                        r4.dropWhile (fun y => y ≠ '\n'))
              else none
        else none) = none := hs
      simp only [List.cons_append]
      by_cases hx : x = '.'
      · rw [if_pos hx]
        rw [if_pos hx] at hs1
        by_cases hstop2 : r1t.dropWhile pyIsSpace = []
        · have hall : ∀ y ∈ r1t, pyIsSpace y = true :=
            List.dropWhile_eq_nil_iff.mp hstop2
          obtain ⟨tw2, dw2⟩ := takeWhile_append_all r1t k hall
          rw [tw2, dw2, hkeq]
          have hkt : (d :: ks).takeWhile pyIsSpace = [] := by
            simp [List.takeWhile_cons, pyIsDigit_not_space hd]
          have hkd : (d :: ks).dropWhile pyIsSpace = d :: ks := by
            simp [List.dropWhile_cons, pyIsDigit_not_space hd]
          rw [hkt, hkd, List.append_nil]
          by_cases hre : r1t.isEmpty
          · rw [if_pos hre]
          · rw [if_neg hre]
            simp [pyIsDigit_not_upper hd]
        · obtain ⟨tw2, dw2⟩ := takeWhile_append_stop r1t k hstop2
          rw [tw2, dw2]
          by_cases hws : (r1t.takeWhile pyIsSpace).isEmpty
          · rw [if_pos hws]
          · rw [if_neg hws]
            rw [if_neg hws] at hs1
            cases hr3 : r1t.dropWhile pyIsSpace with
            | nil => exact absurd hr3 hstop2
            | cons c r4 =>
              rw [hr3] at hs1
              have hs2 : (if pyIsUpper c = true then
                  if (r4.takeWhile (fun y => y ≠ '\n')).isEmpty = true then none
                  else
                    some (s.takeWhile pyIsDigit ++ x :: r1t.takeWhile pyIsSpace
                            ++ c :: r4.takeWhile (fun y => y ≠ '\n'),
                          r4.dropWhile (fun y => y ≠ '\n'))
                else none) = none := hs1
              simp only [List.cons_append]
              by_cases hup : pyIsUpper c
              · rw [if_pos hup]
                rw [if_pos hup] at hs2
                by_cases htl : (r4.takeWhile (fun y => y ≠ '\n')).isEmpty
                · cases r4 with
                  | nil =>
                    exfalso
                    have hseq : s = (s.takeWhile pyIsDigit
                        ++ x :: r1t.takeWhile pyIsSpace) ++ [c] := by
                      conv_lhs =>
                        rw [← List.takeWhile_append_dropWhile pyIsDigit s]
                      rw [hr1]
                      conv_lhs =>
                        rw [show r1t = r1t.takeWhile pyIsSpace
                              ++ r1t.dropWhile pyIsSpace from
                              (List.takeWhile_append_dropWhile pyIsSpace r1t).symm]
                      rw [hr3]
                      simp
                    rw [hseq, List.getLast?_concat] at hlast
                    have hc : c = '\n' := Option.some.inj hlast
                    rw [hc] at hup
                    exact absurd hup (by decide)
                  | cons e r4t =>
                    have he : e = '\n' := by
                      by_contra hne
                      rw [List.takeWhile_cons, if_pos (by simpa using hne)] at htl
                      simp at htl
                    subst he
                    rw [if_pos (by simp [List.takeWhile_cons])]
                · rw [if_neg htl] at hs2
                  exact absurd hs2 (by simp)
              · rw [if_neg hup]
      · rw [if_neg hx]

/-- Scanning an inert stretch (ending at a line boundary) followed by a
digit-initial continuation just accumulates the stretch. -/
theorem reScan_skip (s : List Char) : ∀ (k acc : List Char),
    (s = [] ∨ s.getLast? = some '\n') → noHeadingMatch s = true →
    (∃ d ks, k = d :: ks ∧ pyIsDigit d = true) →
    reScan (s ++ k) acc = reScan k (s.reverse ++ acc) := by
  induction s with
  | nil =>
    intro k acc _ _ _
    simp
  | cons c cs ih =>
    intro k acc hlast hnm hk
    have hl : (c :: cs).getLast? = some '\n' := by
      rcases hlast with h | h
      · exact absurd h (by simp)
      · exact h
    have hnm' : matchHeading (c :: cs) = none ∧ noHeadingMatch cs = true := by
      simpa [noHeadingMatch, Option.isNone_iff_eq_none] using hnm
    obtain ⟨h1, hnm2⟩ := hnm'
    have h2 : matchHeading ((c :: cs) ++ k) = none :=
      matchHeading_append_none k hl hk h1
    rw [List.cons_append] at h2 ⊢
    rw [reScan_cons_none acc h2]
    cases cs with
    | nil =>
      simp [reScan]
    | cons c2 cs2 =>
      have hl2 : (c2 :: cs2).getLast? = some '\n' := by
        rw [← List.getLast?_cons_cons (a := c)]
        exact hl
      rw [ih k (c :: acc) (Or.inr hl2) hnm2 hk]
      simp

/-- Scanning text with no heading match yields that text as the single
remaining part. -/
theorem reScan_noMatch (s : List Char) : ∀ acc : List Char,
    noHeadingMatch s = true → reScan s acc = [acc.reverse ++ s] := by
  induction s with
  | nil =>
    intro acc _
    simp [reScan, reSplitAuxF]
  | cons c cs ih =>
    intro acc hnm
    have hnm' : matchHeading (c :: cs) = none ∧ noHeadingMatch cs = true := by
      simpa [noHeadingMatch, Option.isNone_iff_eq_none] using hnm
    rw [reScan_cons_none acc hnm'.1]
    rw [ih (c :: acc) hnm'.2]
    simp

theorem isSpecHeading_decomp {h : List Char} (hh : isSpecHeading h = true) :
    ∃ c rest, h.dropWhile pyIsDigit = '.' :: ' ' :: c :: rest ∧
      h.takeWhile pyIsDigit ≠ [] ∧ pyIsUpper c = true ∧ rest ≠ [] ∧ '\n' ∉ rest := by
  unfold isSpecHeading at hh
  rw [Bool.and_eq_true] at hh
  obtain ⟨h1, h2⟩ := hh
  have hne : h.takeWhile pyIsDigit ≠ [] := by
    simpa [List.isEmpty_iff] using h1
  cases hd : h.dropWhile pyIsDigit with
  | nil =>
    rw [hd] at h2
    simp at h2
  | cons x rest1 =>
    cases rest1 with
    | nil =>
      rw [hd] at h2
      simp at h2
    | cons y rest2 =>
      cases rest2 with
      | nil =>
        rw [hd] at h2
        simp at h2
      | cons c rest =>
        rw [hd] at h2
        have h2' : (x = '.' && (y = ' ' && (pyIsUpper c
            && (¬rest.isEmpty && decide ('\n' ∉ rest))))) = true := by
          simpa [Bool.and_assoc] using h2
        simp only [Bool.and_eq_true, decide_eq_true_iff] at h2'
        obtain ⟨hx, hy, hc, hrne, hrn⟩ := h2'
        refine ⟨c, rest, ?_, hne, hc, ?_, hrn⟩
        · rw [hx, hy]
        · simpa [List.isEmpty_iff] using hrne

/-- The heading regex, tried at a well-formed heading line followed by a
newline-initial (or empty) continuation, matches exactly the heading. -/
theorem matchHeading_heading_append (h k : List Char)
    (hh : isSpecHeading h = true)
    (hk : k = [] ∨ k.head? = some '\n') :
    matchHeading (h ++ k) = some (h, k) := by
  obtain ⟨c, rest, hdrop, htw, hup, hrne, hrn⟩ := isSpecHeading_decomp hh
  have hstop1 : h.dropWhile pyIsDigit ≠ [] := by
    rw [hdrop]
    simp
  obtain ⟨tw1, dw1⟩ := takeWhile_append_stop h k hstop1
  unfold matchHeading
  rw [tw1, dw1, hdrop]
  rw [if_neg (by simpa [List.isEmpty_iff] using htw)]
  simp only [List.cons_append]
  rw [if_pos trivial]
  have hsp : pyIsSpace ' ' = true := by decide
  have hcns : pyIsSpace c = false := pyIsUpper_not_space hup
  have htw2 : (' ' :: c :: (rest ++ k)).takeWhile pyIsSpace = [' '] := by
    simp only [List.takeWhile_cons, hsp, if_true, hcns]
    simp
  have hdw2 : (' ' :: c :: (rest ++ k)).dropWhile pyIsSpace = c :: (rest ++ k) := by
    simp only [List.dropWhile_cons, hsp, if_true, hcns]
    simp
  rw [htw2, hdw2]
  show (if pyIsUpper c = true then
      if ((rest ++ k).takeWhile (fun y => y ≠ '\n')).isEmpty = true then none
      else some (h.takeWhile pyIsDigit ++ ['.', ' ']
                   ++ c :: (rest ++ k).takeWhile (fun y => y ≠ '\n'),
                 (rest ++ k).dropWhile (fun y => y ≠ '\n'))
    else none) = some (h, k)
  rw [if_pos hup]
  have hrest : ∀ y ∈ rest, (fun y => decide (y ≠ '\n')) y = true := by
    intro y hy
    rw [decide_eq_true_iff]
    intro hcon
    rw [hcon] at hy
    exact hrn hy
  obtain ⟨tw3, dw3⟩ := takeWhile_append_all rest k hrest
  have hkt : k.takeWhile (fun y => y ≠ '\n') = [] := by
    rcases hk with hk | hk
    · rw [hk]
      rfl
    · cases k with
      | nil => rfl
      | cons e t =>
        have : e = '\n' := by
          simpa using hk
        rw [this, List.takeWhile_cons]
        simp
  have hkd : k.dropWhile (fun y => y ≠ '\n') = k := by
    rcases hk with hk | hk
    · rw [hk]
      rfl
    · cases k with
      | nil => rfl
      | cons e t =>
        have : e = '\n' := by
          simpa using hk
        rw [this, List.dropWhile_cons]
        simp
  rw [tw3, dw3, hkt, hkd, List.append_nil]
  rw [if_neg (by simpa [List.isEmpty_iff] using hrne)]
  have hfin : h.takeWhile pyIsDigit ++ ['.', ' '] ++ c :: rest = h := by
    conv_rhs => rw [← List.takeWhile_append_dropWhile pyIsDigit h]
    rw [hdrop]
    simp
  rw [hfin]

theorem isSpecHeading_head_digit {h : List Char} (hh : isSpecHeading h = true) :
    ∃ d hs, h = d :: hs ∧ pyIsDigit d = true := by
  obtain ⟨c, rest, hdrop, htw, -, -, -⟩ := isSpecHeading_decomp hh
  cases hd : h.takeWhile pyIsDigit with
  | nil => exact absurd hd htw
  | cons a as =>
    have ha : pyIsDigit a = true :=
      List.mem_takeWhile_imp (by rw [hd]; exact List.mem_cons_self a as)
    refine ⟨a, as ++ h.dropWhile pyIsDigit, ?_, ha⟩
    conv_lhs => rw [← List.takeWhile_append_dropWhile pyIsDigit h]
    rw [hd]
    rfl

theorem glueBlocks_cons (p : List Char × List Char)
    (blocks : List (List Char × List Char)) :
    glueBlocks (p :: blocks) = p.1 ++ (p.2 ++ glueBlocks blocks) := by
  simp [glueBlocks]

theorem blockOK_iff {p : List Char × List Char} :
    blockOK p = true ↔ isSpecHeading p.1 = true ∧ p.2.head? = some '\n'
      ∧ p.2.getLast? = some '\n' ∧ noHeadingMatch p.2 = true := by
  unfold blockOK
  simp [Bool.and_assoc, and_assoc]

theorem glueBlocks_head_digit {q : List Char × List Char}
    (qrest : List (List Char × List Char)) (hq : isSpecHeading q.1 = true) :
    ∃ d ks, glueBlocks (q :: qrest) = d :: ks ∧ pyIsDigit d = true := by
  obtain ⟨d, hs', hph, hd⟩ := isSpecHeading_head_digit hq
  refine ⟨d, hs' ++ (q.2 ++ glueBlocks qrest), ?_, hd⟩
  rw [glueBlocks_cons, hph]
  rfl

theorem reScan_blocks (blocks : List (List Char × List Char)) :
    ∀ acc : List Char, blocks ≠ [] → blocks.all blockOK = true →
    reScan (glueBlocks blocks) acc
      = acc.reverse :: blocks.flatMap (fun p => [p.1, p.2]) := by
  induction blocks with
  | nil =>
    intro acc h _
    exact absurd rfl h
  | cons p rest ih =>
    intro acc _ hall
    have hall2 : blockOK p = true ∧ rest.all blockOK = true := by
      simpa using hall
    obtain ⟨hp, hall'⟩ := hall2
    obtain ⟨hh, hbh, hbl, hbn⟩ := blockOK_iff.mp hp
    rw [glueBlocks_cons]
    have hcont : (p.2 ++ glueBlocks rest) = [] ∨
        (p.2 ++ glueBlocks rest).head? = some '\n' := by
      right
      cases hb2 : p.2 with
      | nil =>
        rw [hb2] at hbh
        simp at hbh
      | cons e t =>
        rw [hb2] at hbh
        simp only [List.head?_cons, Option.some.injEq] at hbh
        simp [hbh]
    have hm := matchHeading_heading_append p.1 (p.2 ++ glueBlocks rest) hh hcont
    obtain ⟨d, hs', hph, hd⟩ := isSpecHeading_head_digit hh
    rw [hph] at hm ⊢
    rw [List.cons_append]
    have hm' : matchHeading (d :: (hs' ++ (p.2 ++ glueBlocks rest)))
        = some (d :: hs', p.2 ++ glueBlocks rest) := by
      rw [← List.cons_append]
      exact hm
    rw [reScan_cons_match acc hm']
    cases rest with
    | nil =>
      rw [show glueBlocks [] = [] from rfl, List.append_nil]
      rw [reScan_noMatch p.2 [] hbn]
      simp [hph]
    | cons q qrest =>
      have hq : isSpecHeading q.1 = true := by
        have : blockOK q = true := by
          have := hall'
          simp only [List.all_cons, Bool.and_eq_true] at this
          exact this.1
        exact (blockOK_iff.mp this).1
      rw [reScan_skip p.2 (glueBlocks (q :: qrest)) [] (Or.inr hbl) hbn
            (glueBlocks_head_digit qrest hq)]
      rw [ih (p.2.reverse ++ []) (by simp) hall']
      simp [hph]

theorem loopHeadingMatch_of_spec {h : List Char} (hh : isSpecHeading h = true) :
    loopHeadingMatch h = true := by
  obtain ⟨c, rest, hdrop, htw, hup, hrne, hrn⟩ := isSpecHeading_decomp hh
  have hcns : pyIsSpace c = false := pyIsUpper_not_space hup
  have hsp : pyIsSpace ' ' = true := by decide
  unfold loopHeadingMatch
  rw [if_neg (by simpa [List.isEmpty_iff] using htw)]
  simp [hdrop, List.takeWhile_cons, List.dropWhile_cons, hsp, hcns, hup]

theorem loopHeadingMatch_newline {b : List Char} (hb : b.head? = some '\n') :
    loopHeadingMatch b = false := by
  cases b with
  | nil => simp at hb
  | cons e t =>
    have he : e = '\n' := by simpa using hb
    subst he
    unfold loopHeadingMatch
    rw [if_pos (by simp [List.takeWhile_cons]; decide)]

theorem loopHeadingMatch_nil : loopHeadingMatch [] = false := rfl

theorem runLoop_cons_heading {p : List Char} {ps : List (List Char)}
    {sec : List Char} {cont : List (List Char)} (hp : loopHeadingMatch p = true) :
    runLoop (p :: ps) (some sec) cont
      = flushChunk sec cont :: runLoop ps (some (pyStrip p)) [p] := by
  simp [runLoop, hp]

theorem runLoop_cons_heading_none {p : List Char} {ps : List (List Char)}
    {cont : List (List Char)} (hp : loopHeadingMatch p = true) :
    runLoop (p :: ps) none cont = runLoop ps (some (pyStrip p)) [p] := by
  simp [runLoop, hp]

theorem runLoop_cons_content_keep {p : List Char} {ps : List (List Char)}
    {sec : Option (List Char)} {cont : List (List Char)}
    (hp : loopHeadingMatch p = false) (hs : (pyStrip p).isEmpty = false) :
    runLoop (p :: ps) sec cont = runLoop ps sec (cont ++ [p]) := by
  simp [runLoop, hp, hs]

theorem runLoop_cons_content_skip {p : List Char} {ps : List (List Char)}
    {sec : Option (List Char)} {cont : List (List Char)}
    (hp : loopHeadingMatch p = false) (hs : (pyStrip p).isEmpty = true) :
    runLoop (p :: ps) sec cont = runLoop ps sec cont := by
  simp [runLoop, hp, hs]

theorem runLoop_none_cont (ps : List (List Char)) :
    ∀ c1 c2 : List (List Char), runLoop ps none c1 = runLoop ps none c2 := by
  induction ps with
  | nil =>
    intro c1 c2
    rfl
  | cons p ps ih =>
    intro c1 c2
    by_cases hp : loopHeadingMatch p
    · rw [runLoop_cons_heading_none hp, runLoop_cons_heading_none hp]
    · by_cases hs : (pyStrip p).isEmpty
      · rw [runLoop_cons_content_skip (by simpa using hp) hs,
            runLoop_cons_content_skip (by simpa using hp) hs]
        exact ih _ _
      · rw [runLoop_cons_content_keep (by simpa using hp) (by simpa using hs),
            runLoop_cons_content_keep (by simpa using hp) (by simpa using hs)]
        exact ih _ _

theorem runLoop_blocks (blocks : List (List Char × List Char)) :
    ∀ (sec : List Char) (cont : List (List Char)), blocks.all blockOK = true →
    runLoop (blocks.flatMap fun p => [p.1, p.2]) (some sec) cont
      = flushChunk sec cont :: blocks.map (fun p =>
          flushChunk (pyStrip p.1)
            (if (pyStrip p.2).isEmpty then [p.1] else [p.1, p.2])) := by
  induction blocks with
  | nil =>
    intro sec cont _
    rfl
  | cons p rest ih =>
    intro sec cont hall
    have hall2 : blockOK p = true ∧ rest.all blockOK = true := by
      simpa using hall
    obtain ⟨hp, hall'⟩ := hall2
    obtain ⟨hh, hbh, hbl, hbn⟩ := blockOK_iff.mp hp
    have hlm : loopHeadingMatch p.1 = true := loopHeadingMatch_of_spec hh
    have hlb : loopHeadingMatch p.2 = false := loopHeadingMatch_newline hbh
    rw [show (p :: rest).flatMap (fun p => [p.1, p.2])
          = p.1 :: p.2 :: rest.flatMap (fun p => [p.1, p.2]) by simp]
    rw [runLoop_cons_heading hlm]
    by_cases hse : (pyStrip p.2).isEmpty
    · rw [runLoop_cons_content_skip hlb hse]
      rw [ih (pyStrip p.1) [p.1] hall']
      have hse' : pyStrip p.2 = [] := by simpa [List.isEmpty_iff] using hse
      simp [hse']
    · rw [runLoop_cons_content_keep hlb (by simpa using hse)]
      rw [ih (pyStrip p.1) ([p.1] ++ [p.2]) hall']
      have hse' : pyStrip p.2 ≠ [] := by simpa [List.isEmpty_iff] using hse
      simp [hse']

theorem preOK_decomp {pre : List Char} (hpre : preOK pre = true) :
    noHeadingMatch pre = true ∧ (pre = [] ∨ pre.getLast? = some '\n') := by
  unfold preOK at hpre
  rw [Bool.and_eq_true] at hpre
  obtain ⟨h1, h2⟩ := hpre
  refine ⟨h1, ?_⟩
  rw [Bool.or_eq_true] at h2
  rcases h2 with h2 | h2
  · left
    simpa [List.isEmpty_iff] using h2
  · right
    exact decide_eq_true_iff.mp h2

/-- The full characterization of `split_by_sections` on a text made of an
inert preamble followed by well-formed heading/body blocks: one chunk per
block, in order, whose content is the heading joined (by the loop's
`'\n'.join`) with its body when the body has visible content. -/
theorem split_by_sections_structured (pre : List Char)
    (blocks : List (List Char × List Char))
    (hpre : preOK pre = true) (hploop : loopHeadingMatch pre = false)
    (hbs : blocks.all blockOK = true) (hne : blocks ≠ []) :
    split_by_sections (pre ++ glueBlocks blocks)
      = blocks.map (fun p => flushChunk (pyStrip p.1)
          (if (pyStrip p.2).isEmpty then [p.1] else [p.1, p.2])) := by
  obtain ⟨hnm, hlast⟩ := preOK_decomp hpre
  unfold split_by_sections reSplit
  cases blocks with
  | nil => exact absurd rfl hne
  | cons q qrest =>
    have hq : blockOK q = true ∧ qrest.all blockOK = true := by
      simpa using hbs
    have hdg := glueBlocks_head_digit qrest (blockOK_iff.mp hq.1).1
    rw [reScan_skip pre (glueBlocks (q :: qrest)) [] hlast hnm hdg]
    rw [reScan_blocks (q :: qrest) (pre.reverse ++ []) (by simp) hbs]
    simp only [List.append_nil, List.reverse_reverse]
    have step1 : runLoop (pre :: ((q :: qrest).flatMap fun p => [p.1, p.2])) none []
        = runLoop ((q :: qrest).flatMap fun p => [p.1, p.2]) none [] := by
      by_cases hse : (pyStrip pre).isEmpty
      · rw [runLoop_cons_content_skip hploop hse]
      · rw [runLoop_cons_content_keep hploop (by simpa using hse)]
        exact runLoop_none_cont _ _ _
    rw [step1]
    rw [show (q :: qrest).flatMap (fun p => [p.1, p.2])
          = q.1 :: q.2 :: qrest.flatMap (fun p => [p.1, p.2]) by simp]
    obtain ⟨hh, hbh, hbl, hbn⟩ := blockOK_iff.mp hq.1
    rw [runLoop_cons_heading_none (loopHeadingMatch_of_spec hh)]
    by_cases hse2 : (pyStrip q.2).isEmpty
    · rw [runLoop_cons_content_skip (loopHeadingMatch_newline hbh) hse2]
      rw [runLoop_blocks qrest (pyStrip q.1) [q.1] hq.2]
      have hse' : pyStrip q.2 = [] := by simpa [List.isEmpty_iff] using hse2
      simp [hse']
    · rw [runLoop_cons_content_keep (loopHeadingMatch_newline hbh) (by simpa using hse2)]
      rw [runLoop_blocks qrest (pyStrip q.1) ([q.1] ++ [q.2]) hq.2]
      have hse' : pyStrip q.2 ≠ [] := by simpa [List.isEmpty_iff] using hse2
      simp [hse']

theorem intercalate_single (s a : List Char) : List.intercalate s [a] = a := by
  simp [List.intercalate]

theorem intercalate_pair (s a b : List Char) :
    List.intercalate s [a, b] = a ++ s ++ b := by
  simp [List.intercalate, List.intersperse]

/-- C5 counterexample: the text `"1. Alpha\nsee 2. Beta ok\n"` contains
exactly one well-formed heading line (`"1. Alpha"`), yet section-aware
chunking produces two chunks, because the unanchored pattern also
matches `"2. Beta ok"` in the middle of the second line. -/
theorem c5_counterexample :
    specHeadingLines ("1. Alpha\nsee 2. Beta ok\n").toList = 1 ∧
    (split_by_sections ("1. Alpha\nsee 2. Beta ok\n").toList).length = 2 :=
  ⟨by decide, by decide⟩

/-- C5 amended: for a text consisting of inert preamble text followed by
N = `blocks.length` ≥ 1 well-formed numeric-ordinal heading lines, each
followed by a body in which the heading pattern does not occur,
section-aware chunking produces exactly N chunks, and the i-th chunk's
content starts with the i-th heading line (its section metadata is that
heading, stripped).  The counterexample above shows why the inertness
condition is necessary: stray mid-line occurrences of the unanchored
pattern each start an extra chunk. -/
theorem c5_one_chunk_per_heading (pre : List Char)
    (blocks : List (List Char × List Char))
    (hpre : preOK pre = true) (hploop : loopHeadingMatch pre = false)
    (hbs : blocks.all blockOK = true) (hne : blocks ≠ []) :
    (split_by_sections (pre ++ glueBlocks blocks)).length = blocks.length ∧
    ∀ i : Nat, i < blocks.length →
      ∃ ch p, (split_by_sections (pre ++ glueBlocks blocks))[i]? = some ch ∧
        blocks[i]? = some p ∧
        ch.content.take p.1.length = p.1 ∧
        ch.sectionTitle = pyStrip p.1 := by
  rw [split_by_sections_structured pre blocks hpre hploop hbs hne]
  constructor
  · simp
  · intro i hi
    have hp : blocks[i]? = some blocks[i] := List.getElem?_eq_getElem hi
    refine ⟨flushChunk (pyStrip (blocks[i]).1)
        (if (pyStrip (blocks[i]).2).isEmpty then [(blocks[i]).1]
         else [(blocks[i]).1, (blocks[i]).2]),
      blocks[i], ?_, hp, ?_, ?_⟩
    · rw [List.getElem?_map, hp]
      rfl
    · by_cases hse : (pyStrip (blocks[i]).2).isEmpty
      · rw [if_pos hse]
        simp only [flushChunk, intercalate_single]
        exact List.take_length _
      · rw [if_neg (by simpa using hse)]
        simp only [flushChunk, intercalate_pair]
        rw [List.append_assoc]
        exact List.take_left _ _
    · by_cases hse : (pyStrip (blocks[i]).2).isEmpty
      · rw [if_pos hse]
        simp [flushChunk]
      · rw [if_neg (by simpa using hse)]
        simp [flushChunk]

theorem c5_witness :
    preOK ("intro\n").toList = true ∧
    loopHeadingMatch ("intro\n").toList = false ∧
    [(("1. Alpha x").toList, ("\nbody\n").toList),
     (("2. Beta y").toList, ("\nmore\n").toList)].all blockOK = true ∧
    (split_by_sections (("intro\n").toList ++ glueBlocks
        [(("1. Alpha x").toList, ("\nbody\n").toList),
         (("2. Beta y").toList, ("\nmore\n").toList)])).length = 2 :=
  ⟨by decide, by decide, by decide,
   (c5_one_chunk_per_heading ("intro\n").toList
      [(("1. Alpha x").toList, ("\nbody\n").toList),
       (("2. Beta y").toList, ("\nmore\n").toList)]
      (by decide) (by decide) (by decide) (by simp)).1⟩

/-- C10 counterexample: in `"1.\nA\n2. Beta ok\n"` the text before the
only well-formed heading (`"2. Beta ok"`) is `"1.\nA\n"`, which is not
discarded: it passes the loop's loose `\d+\.\s+[A-Z]` test (the `\s+`
crosses the newline) and becomes the entire content of the first chunk. -/
theorem c10_counterexample :
    isSpecHeading ("2. Beta ok").toList = true ∧
    specHeadingLines ("1.\nA\n2. Beta ok\n").toList = 1 ∧
    ("1.\nA\n2. Beta ok\n").toList
      = ("1.\nA\n").toList ++ ("2. Beta ok\n").toList ∧
    ((split_by_sections ("1.\nA\n2. Beta ok\n").toList)[0]?).map SectionChunk.content
      = some ("1.\nA\n").toList :=
  ⟨by decide, by decide, by decide, by decide⟩

/-- C10 amended: when the text before the first heading-pattern match is
inert — no heading-pattern match starts inside it, it ends at a line
boundary, and it does not itself begin with the loop's loose
`\d+\.\s+[A-Z]` pattern — the chunking result is exactly that of the
text without the preamble: the preceding text contributes to no chunk. -/
theorem c10_inert_preamble_discarded (pre tail : List Char)
    (hpre : preOK pre = true) (hploop : loopHeadingMatch pre = false)
    (hmatch : ∃ m r, matchHeading tail = some (m, r)) :
    split_by_sections (pre ++ tail) = split_by_sections tail := by
  obtain ⟨m, r, hm⟩ := hmatch
  obtain ⟨hteq, -, d, m', hmd, hd⟩ := matchHeading_spec tail m r hm
  obtain ⟨hnm, hlast⟩ := preOK_decomp hpre
  have htail : tail = d :: (m' ++ r) := by
    rw [hteq, hmd]
    rfl
  have hm' : matchHeading (d :: (m' ++ r)) = some (m, r) := by
    rw [← htail]
    exact hm
  unfold split_by_sections reSplit
  rw [reScan_skip pre tail [] hlast hnm ⟨d, m' ++ r, htail, hd⟩]
  rw [htail]
  rw [reScan_cons_match (pre.reverse ++ []) hm', reScan_cons_match ([] : List Char) hm']
  simp only [List.append_nil, List.reverse_reverse, List.reverse_nil]
  have hR : runLoop ([] :: m :: reScan r []) none [] = runLoop (m :: reScan r []) none [] :=
    runLoop_cons_content_skip loopHeadingMatch_nil rfl
  rw [hR]
  by_cases hse : (pyStrip pre).isEmpty
  · rw [runLoop_cons_content_skip hploop hse]
  · rw [runLoop_cons_content_keep hploop (by simpa using hse)]
    exact runLoop_none_cont _ _ _

theorem c10_witness :
    preOK ("intro text\n").toList = true ∧
    loopHeadingMatch ("intro text\n").toList = false ∧
    (∃ m r, matchHeading ("1. Alpha x\nbody").toList = some (m, r)) ∧
    split_by_sections (("intro text\n").toList ++ ("1. Alpha x\nbody").toList)
      = split_by_sections ("1. Alpha x\nbody").toList :=
  ⟨by decide, by decide,
   ⟨("1. Alpha x").toList, ("\nbody").toList, by decide⟩,
   c10_inert_preamble_discarded ("intro text\n").toList ("1. Alpha x\nbody").toList
     (by decide) (by decide)
     ⟨("1. Alpha x").toList, ("\nbody").toList, by decide⟩⟩
